import Mathlib

/-!
Verification of the build-time feature-resolution engine of `rust-ffmpeg-sys`
(`src/build.rs`) against its specification.

The build script is shallowly embedded: the pure string/list manipulation of
`check_features` (diagnostic-program synthesis, output parsing), the configure
argument assembly of `build`, and the `EXTRALIBS` link-flag record processing
of `main` are translated into executable Lean definitions.  Code that panics
(`unwrap`, slice out of range, missing tag `expect`) is modelled with `Option`,
`none` standing for the panic.  Environment-variable lookups
(`env::var(..).is_ok()`) are modelled by boolean-valued lookup functions passed
in explicitly.  Strings are modelled at the character level (the data handled
by the script is ASCII, where Rust's byte indices and character indices agree).
-/

namespace FfmpegSys

/-- First index at which `pat` occurs as a contiguous substring of `hay`
(model of Rust `str::find` for a literal pattern, as used on
`includes_code` and on the probe stdout in `check_features`). -/
def findSub : List Char → List Char → Option Nat
  | [], pat => if pat.isPrefixOf ([] : List Char) then some 0 else none
  | c :: t, pat =>
    if pat.isPrefixOf (c :: t) then some 0 else (findSub t pat).map (fun k => k + 1)

/-! ### Decimal printing (model of C `printf("%d", ·)`)

The diagnostic program prints macro values with `%d`; the parser then looks at
single characters of the output, so the embedding needs an explicit decimal
printer.  A fuel-based definition keeps it structurally recursive. -/

/-- Decimal digit character. -/
def digitC : Nat → Char
  | 0 => '0'
  | 1 => '1'
  | 2 => '2'
  | 3 => '3'
  | 4 => '4'
  | 5 => '5'
  | 6 => '6'
  | 7 => '7'
  | 8 => '8'
  | 9 => '9'
  | _ => '*'

def natDecAux : Nat → Nat → List Char
  | 0, _ => []
  | fuel + 1, n =>
    if n < 10 then [digitC n] else natDecAux fuel (n / 10) ++ [digitC (n % 10)]

/-- Decimal representation of a natural number. -/
def natDec (n : Nat) : List Char := natDecAux (n + 1) n

/-- Decimal representation of an integer, as printed by `printf("%d", ·)`. -/
def intDec (i : Int) : List Char :=
  if i < 0 then '-' :: natDec i.natAbs else natDec i.toNat

/-! ### The availability probe (`check_features`, src/build.rs lines 319-479)

`check_features` receives a catalog of `(header, feature, var)` triples.  For
each retained triple (feature gate absent, or the `CARGO_FEATURE_*` variable
set) the synthesized C program prints `printf("[{var}]%d%d\n", var,
var_is_defined)` where the guarded definition block makes `var` expand to `0`
and `var_is_defined` to `0` when the header leaves `var` undefined, and leaves
`var` intact with `var_is_defined` `1` otherwise.  The parser locates
`"[var]"` in the captured stdout and inspects the two following characters. -/

/-- One entry of the probe catalog: `(header, feature, var)`. -/
structure ProbeSpec where
  header : String
  feature : Option String
  var : String
deriving DecidableEq

/-- The guard-feature filter applied (identically) by the synthesis loop
(line 327) and the parse loop (line 430): a spec is skipped when its guard
feature names an unset `CARGO_FEATURE_*` variable. -/
def retained (enabled : String → Bool) (s : ProbeSpec) : Bool :=
  match s.feature with
  | none => true
  | some f => enabled ("CARGO_FEATURE_" ++ f.toUpper)

/-- The header facts visible to the diagnostic program: the (integer) macro
expansion of a probed symbol, or `none` when the header leaves it undefined. -/
def HeaderFacts : Type := String → Option Int

/-- The characters a probe line prints after its `"[var]"` tag: the value of
`var` after the guard block (the header value, or `0` if undefined) in
decimal, then the is-defined flag digit, then the newline. -/
def lineDigits (facts : HeaderFacts) (v : String) : List Char :=
  intDec ((facts v).getD 0) ++ (if (facts v).isSome then ['1'] else ['0']) ++ ['\n']

/-- The full output line of one probe: model of
`printf("[{var}]%d%d\n", {var}, {var}_is_defined)` (line 350). -/
def probeLine (facts : HeaderFacts) (v : String) : List Char :=
  '[' :: v.data ++ ']' :: lineDigits facts v

/-- Concatenated probe output for a list of symbols, in catalog order. -/
def outLines (facts : HeaderFacts) (vs : List String) : List Char :=
  vs.flatMap (fun v => probeLine facts v)

/-- The diagnostic program's standard output for a catalog: one probe line per
retained spec (the synthesis loop of lines 326-354 combined with the C
semantics of the emitted block). -/
def probeStdout (facts : HeaderFacts) (enabled : String → Bool)
    (specs : List ProbeSpec) : List Char :=
  outLines facts ((specs.filter (retained enabled)).map (fun s => s.var))

/-- The parse of one probe result (lines 436-451): find `"[var]"` in the
captured stdout, then read the two characters after it; the value fact is the
first character compared with `'1'`, the is-defined fact the second.  `none`
models the `expect("H-Variable not found in output")` panic and the slice
panic on a truncated line. -/
def parseProbe (stdout : List Char) (v : String) : Option (Bool × Bool) :=
  match findSub stdout ('[' :: v.data ++ [']']) with
  | none => none
  | some i =>
    let pos := i + v.length + 2
    match stdout[pos]?, stdout[pos + 1]? with
    | some a, some b => some (decide (a = '1'), decide (b = '1'))
    | _, _ => none

/-- The whole parse loop of `check_features` (lines 429-452): walk the catalog
with the same guard filter as the synthesis loop, parsing each retained spec;
`none` models a panic on any retained spec whose tag is absent. -/
def parsePass (enabled : String → Bool) (stdout : List Char) :
    List ProbeSpec → Option (List (String × Bool × Bool))
  | [] => some []
  | s :: rest =>
    if retained enabled s then
      match parseProbe stdout s.var with
      | none => none
      | some r => (parsePass enabled stdout rest).map (fun l => (s.var, r) :: l)
    else parsePass enabled stdout rest

/-- A probe symbol name made of ordinary identifier characters: it contains
neither `'['` nor `']'` (every symbol in the concrete catalog satisfies
this). -/
def noBrk (s : String) : Prop := ∀ c ∈ s.data, c ≠ '[' ∧ c ≠ ']'

instance (s : String) : Decidable (noBrk s) := by
  unfold noBrk
  infer_instance

/-! ### The concrete probe catalog passed to `check_features` (lines 702-1000) -/

set_option maxHeartbeats 2000000 in
/-- The probe catalog `main` passes to `check_features`, transcribed entry by
entry from the `vec![...]` literal. -/
def catalogInfos : List ProbeSpec := [
  ⟨"libavutil/avutil.h", none, "FF_API_OLD_AVOPTIONS"⟩,
  ⟨"libavutil/avutil.h", none, "FF_API_PIX_FMT"⟩,
  ⟨"libavutil/avutil.h", none, "FF_API_CONTEXT_SIZE"⟩,
  ⟨"libavutil/avutil.h", none, "FF_API_PIX_FMT_DESC"⟩,
  ⟨"libavutil/avutil.h", none, "FF_API_AV_REVERSE"⟩,
  ⟨"libavutil/avutil.h", none, "FF_API_AUDIOCONVERT"⟩,
  ⟨"libavutil/avutil.h", none, "FF_API_CPU_FLAG_MMX2"⟩,
  ⟨"libavutil/avutil.h", none, "FF_API_LLS_PRIVATE"⟩,
  ⟨"libavutil/avutil.h", none, "FF_API_AVFRAME_LAVC"⟩,
  ⟨"libavutil/avutil.h", none, "FF_API_VDPAU"⟩,
  ⟨"libavutil/avutil.h", none, "FF_API_GET_CHANNEL_LAYOUT_COMPAT"⟩,
  ⟨"libavutil/avutil.h", none, "FF_API_XVMC"⟩,
  ⟨"libavutil/avutil.h", none, "FF_API_OPT_TYPE_METADATA"⟩,
  ⟨"libavutil/avutil.h", none, "FF_API_DLOG"⟩,
  ⟨"libavutil/avutil.h", none, "FF_API_HMAC"⟩,
  ⟨"libavutil/avutil.h", none, "FF_API_VAAPI"⟩,
  ⟨"libavutil/avutil.h", none, "FF_API_PKT_PTS"⟩,
  ⟨"libavutil/avutil.h", none, "FF_API_ERROR_FRAME"⟩,
  ⟨"libavutil/avutil.h", none, "FF_API_FRAME_QP"⟩,
  ⟨"libavcodec/avcodec.h", some "avcodec", "FF_API_VIMA_DECODER"⟩,
  ⟨"libavcodec/avcodec.h", some "avcodec", "FF_API_REQUEST_CHANNELS"⟩,
  ⟨"libavcodec/avcodec.h", some "avcodec", "FF_API_OLD_DECODE_AUDIO"⟩,
  ⟨"libavcodec/avcodec.h", some "avcodec", "FF_API_OLD_ENCODE_AUDIO"⟩,
  ⟨"libavcodec/avcodec.h", some "avcodec", "FF_API_OLD_ENCODE_VIDEO"⟩,
  ⟨"libavcodec/avcodec.h", some "avcodec", "FF_API_CODEC_ID"⟩,
  ⟨"libavcodec/avcodec.h", some "avcodec", "FF_API_AUDIO_CONVERT"⟩,
  ⟨"libavcodec/avcodec.h", some "avcodec", "FF_API_AVCODEC_RESAMPLE"⟩,
  ⟨"libavcodec/avcodec.h", some "avcodec", "FF_API_DEINTERLACE"⟩,
  ⟨"libavcodec/avcodec.h", some "avcodec", "FF_API_DESTRUCT_PACKET"⟩,
  ⟨"libavcodec/avcodec.h", some "avcodec", "FF_API_GET_BUFFER"⟩,
  ⟨"libavcodec/avcodec.h", some "avcodec", "FF_API_MISSING_SAMPLE"⟩,
  ⟨"libavcodec/avcodec.h", some "avcodec", "FF_API_LOWRES"⟩,
  ⟨"libavcodec/avcodec.h", some "avcodec", "FF_API_CAP_VDPAU"⟩,
  ⟨"libavcodec/avcodec.h", some "avcodec", "FF_API_BUFS_VDPAU"⟩,
  ⟨"libavcodec/avcodec.h", some "avcodec", "FF_API_VOXWARE"⟩,
  ⟨"libavcodec/avcodec.h", some "avcodec", "FF_API_SET_DIMENSIONS"⟩,
  ⟨"libavcodec/avcodec.h", some "avcodec", "FF_API_DEBUG_MV"⟩,
  ⟨"libavcodec/avcodec.h", some "avcodec", "FF_API_AC_VLC"⟩,
  ⟨"libavcodec/avcodec.h", some "avcodec", "FF_API_OLD_MSMPEG4"⟩,
  ⟨"libavcodec/avcodec.h", some "avcodec", "FF_API_ASPECT_EXTENDED"⟩,
  ⟨"libavcodec/avcodec.h", some "avcodec", "FF_API_THREAD_OPAQUE"⟩,
  ⟨"libavcodec/avcodec.h", some "avcodec", "FF_API_CODEC_PKT"⟩,
  ⟨"libavcodec/avcodec.h", some "avcodec", "FF_API_ARCH_ALPHA"⟩,
  ⟨"libavcodec/avcodec.h", some "avcodec", "FF_API_XVMC"⟩,
  ⟨"libavcodec/avcodec.h", some "avcodec", "FF_API_ERROR_RATE"⟩,
  ⟨"libavcodec/avcodec.h", some "avcodec", "FF_API_QSCALE_TYPE"⟩,
  ⟨"libavcodec/avcodec.h", some "avcodec", "FF_API_MB_TYPE"⟩,
  ⟨"libavcodec/avcodec.h", some "avcodec", "FF_API_MAX_BFRAMES"⟩,
  ⟨"libavcodec/avcodec.h", some "avcodec", "FF_API_NEG_LINESIZES"⟩,
  ⟨"libavcodec/avcodec.h", some "avcodec", "FF_API_EMU_EDGE"⟩,
  ⟨"libavcodec/avcodec.h", some "avcodec", "FF_API_ARCH_SH4"⟩,
  ⟨"libavcodec/avcodec.h", some "avcodec", "FF_API_ARCH_SPARC"⟩,
  ⟨"libavcodec/avcodec.h", some "avcodec", "FF_API_UNUSED_MEMBERS"⟩,
  ⟨"libavcodec/avcodec.h", some "avcodec", "FF_API_IDCT_XVIDMMX"⟩,
  ⟨"libavcodec/avcodec.h", some "avcodec", "FF_API_INPUT_PRESERVED"⟩,
  ⟨"libavcodec/avcodec.h", some "avcodec", "FF_API_NORMALIZE_AQP"⟩,
  ⟨"libavcodec/avcodec.h", some "avcodec", "FF_API_GMC"⟩,
  ⟨"libavcodec/avcodec.h", some "avcodec", "FF_API_MV0"⟩,
  ⟨"libavcodec/avcodec.h", some "avcodec", "FF_API_CODEC_NAME"⟩,
  ⟨"libavcodec/avcodec.h", some "avcodec", "FF_API_AFD"⟩,
  ⟨"libavcodec/avcodec.h", some "avcodec", "FF_API_VISMV"⟩,
  ⟨"libavcodec/avcodec.h", some "avcodec", "FF_API_DV_FRAME_PROFILE"⟩,
  ⟨"libavcodec/avcodec.h", some "avcodec", "FF_API_AUDIOENC_DELAY"⟩,
  ⟨"libavcodec/avcodec.h", some "avcodec", "FF_API_VAAPI_CONTEXT"⟩,
  ⟨"libavcodec/avcodec.h", some "avcodec", "FF_API_AVCTX_TIMEBASE"⟩,
  ⟨"libavcodec/avcodec.h", some "avcodec", "FF_API_MPV_OPT"⟩,
  ⟨"libavcodec/avcodec.h", some "avcodec", "FF_API_STREAM_CODEC_TAG"⟩,
  ⟨"libavcodec/avcodec.h", some "avcodec", "FF_API_QUANT_BIAS"⟩,
  ⟨"libavcodec/avcodec.h", some "avcodec", "FF_API_RC_STRATEGY"⟩,
  ⟨"libavcodec/avcodec.h", some "avcodec", "FF_API_CODED_FRAME"⟩,
  ⟨"libavcodec/avcodec.h", some "avcodec", "FF_API_MOTION_EST"⟩,
  ⟨"libavcodec/avcodec.h", some "avcodec", "FF_API_WITHOUT_PREFIX"⟩,
  ⟨"libavcodec/avcodec.h", some "avcodec", "FF_API_CONVERGENCE_DURATION"⟩,
  ⟨"libavcodec/avcodec.h", some "avcodec", "FF_API_PRIVATE_OPT"⟩,
  ⟨"libavcodec/avcodec.h", some "avcodec", "FF_API_CODER_TYPE"⟩,
  ⟨"libavcodec/avcodec.h", some "avcodec", "FF_API_RTP_CALLBACK"⟩,
  ⟨"libavcodec/avcodec.h", some "avcodec", "FF_API_STAT_BITS"⟩,
  ⟨"libavcodec/avcodec.h", some "avcodec", "FF_API_VBV_DELAY"⟩,
  ⟨"libavcodec/avcodec.h", some "avcodec", "FF_API_SIDEDATA_ONLY_PKT"⟩,
  ⟨"libavcodec/avcodec.h", some "avcodec", "FF_API_AVPICTURE"⟩,
  ⟨"libavformat/avformat.h", some "avformat", "FF_API_LAVF_BITEXACT"⟩,
  ⟨"libavformat/avformat.h", some "avformat", "FF_API_LAVF_FRAC"⟩,
  ⟨"libavformat/avformat.h", some "avformat", "FF_API_URL_FEOF"⟩,
  ⟨"libavformat/avformat.h", some "avformat", "FF_API_PROBESIZE_32"⟩,
  ⟨"libavformat/avformat.h", some "avformat", "FF_API_LAVF_AVCTX"⟩,
  ⟨"libavformat/avformat.h", some "avformat", "FF_API_OLD_OPEN_CALLBACKS"⟩,
  ⟨"libavfilter/avfilter.h", some "avfilter", "FF_API_AVFILTERPAD_PUBLIC"⟩,
  ⟨"libavfilter/avfilter.h", some "avfilter", "FF_API_FOO_COUNT"⟩,
  ⟨"libavfilter/avfilter.h", some "avfilter", "FF_API_OLD_FILTER_OPTS"⟩,
  ⟨"libavfilter/avfilter.h", some "avfilter", "FF_API_OLD_FILTER_OPTS_ERROR"⟩,
  ⟨"libavfilter/avfilter.h", some "avfilter", "FF_API_AVFILTER_OPEN"⟩,
  ⟨"libavfilter/avfilter.h", some "avfilter", "FF_API_OLD_FILTER_REGISTER"⟩,
  ⟨"libavfilter/avfilter.h", some "avfilter", "FF_API_OLD_GRAPH_PARSE"⟩,
  ⟨"libavfilter/avfilter.h", some "avfilter", "FF_API_NOCONST_GET_NAME"⟩,
  ⟨"libavresample/avresample.h", some "avresample", "FF_API_RESAMPLE_CLOSE_OPEN"⟩,
  ⟨"libswscale/swscale.h", some "swscale", "FF_API_SWS_CPU_CAPS"⟩,
  ⟨"libswscale/swscale.h", some "swscale", "FF_API_ARCH_BFIN"⟩
]

/-- The symbol names the synthesis and parse loops retain, in catalog order,
for a given feature environment. -/
def retainedVars (enabled : String → Bool) : List String :=
  (catalogInfos.filter (retained enabled)).map (fun s => s.var)

/-! ### Version-threshold facts (lines 356-371 and 454-478)

`check_features` expands `version_check_info = [("avcodec", 56, 60, 0, 80)]`
into one printed fact per `(major, minor)` pair of the range product, each
computed in C as
`LIB_VERSION_MAJOR > major || (LIB_VERSION_MAJOR == major && LIB_VERSION_MINOR > minor)`. -/

/-- The boolean printed for one `(major, minor)` pair, as a function of the
installed library version (translation of the C expression in the generated
`printf`, line 363). -/
def versionFact (instMajor instMinor major minor : Nat) : Bool :=
  decide (instMajor > major) || (decide (instMajor = major) && decide (instMinor > minor))

/-- The `(major, minor)` range product iterated by the two nested `for`
loops (lines 360-361 and 457-458). -/
def versionPairs (beginMajor endMajor beginMinor endMinor : Nat) : List (Nat × Nat) :=
  (List.range' beginMajor (endMajor - beginMajor)).flatMap
    (fun vMajor => (List.range' beginMinor (endMinor - beginMinor)).map (fun vMinor => (vMajor, vMinor)))

/-- The concrete range product of `version_check_info` (line 356). -/
def avcodecVersionPairs : List (Nat × Nat) := versionPairs 56 60 0 80

/-! ### Include-directive deduplication in program synthesis (lines 333-337)

The synthesis loop appends `#include <header>` to `includes_code` only when
`includes_code.find(&include).is_none()`.  `synthStep` models one iteration,
additionally recording (second component) the headers whose directive was
actually appended. -/

def includeDirective (header : String) : String := "#include <" ++ header ++ ">"

/-- The guarded definition block appended for every retained spec
(the raw-string literal of lines 338-348, with `{var}` spliced in). -/
def guardBlock (v : String) : String :=
  "\n            #ifndef " ++ v ++ "\n            #define " ++ v ++
    " 0\n            #define " ++ v ++ "_is_defined 0\n            #else\n            #define " ++
    v ++ "_is_defined 1\n            #endif\n        "

/-- One iteration of the synthesis loop acting on
`(includes_code, appended-header list)`. -/
def synthStep (acc : String × List String) (s : ProbeSpec) : String × List String :=
  let inc := includeDirective s.header
  let acc2 := if (findSub acc.1.data inc.data).isNone
    then (acc.1 ++ inc ++ "\n", acc.2 ++ [s.header]) else acc
  (acc2.1 ++ guardBlock s.var, acc2.2)

/-- The `includes_code` accumulation over the retained catalog (the loop of
lines 326-354, restricted to its `includes_code` effect). -/
def synthIncludes (enabled : String → Bool) (specs : List ProbeSpec) : String × List String :=
  (specs.filter (retained enabled)).foldl synthStep ("", [])

/-- Invariant of the synthesis loop: no header was appended twice, and every
appended header's directive occurs in the accumulated text. -/
def IncInv (acc : String × List String) : Prop :=
  acc.2.Nodup ∧
  ∀ h ∈ acc.2, (findSub acc.1.data (includeDirective h).data).isSome = true

/-! ### Configure argument assembly (`build`, src/build.rs lines 109-274)

`build` reads `TARGET`, `HOST`, `DEBUG` and the `CARGO_FEATURE_*` variables
and the install prefix directory (`search()`); `BuildEnv` carries exactly
those inputs.  The `switch!` macro (lines 154-162) always pushes one of
`--enable-NAME` / `--disable-NAME`; the `enable!` macro (lines 164-170)
pushes `--enable-NAME` or nothing. -/

/-- The process environment as read by `build`. -/
structure BuildEnv where
  target : String
  host : String
  search : String
  debugSet : Bool
  feature : String → Bool

/-- Rust `str::contains` for a literal pattern. -/
def hasSub (s sub : String) : Bool := (findSub s.data sub.data).isSome

/-- The escaping applied to the install prefix on Windows targets
(lines 122-130). -/
def winPrefixMangle (s : String) : String :=
  (((s.replace ":" "").replace "\\" "/").replace " " "\\ ").replace "\"" "\\\""

/-- Expansion of `switch!(args, feat, name)` (lines 154-162). -/
def switchArgs (e : BuildEnv) (feat name : String) : List String :=
  if e.feature ("CARGO_FEATURE_" ++ feat) then ["--enable-" ++ name]
  else ["--disable-" ++ name]

/-- Expansion of `enable!(args, feat, name)` (lines 164-170). -/
def enableArgs (e : BuildEnv) (feat name : String) : List String :=
  if e.feature ("CARGO_FEATURE_" ++ feat) then ["--enable-" ++ name] else []

/-- The `(feature, switch-name)` pairs passed through `switch!`
(lines 181-202), in order. -/
def toggleList : List (String × String) := [
  ("BUILD_LICENSE_GPL", "gpl"),
  ("BUILD_LICENSE_VERSION3", "version3"),
  ("BUILD_LICENSE_NONFREE", "nonfree"),
  ("AVCODEC", "avcodec"),
  ("AVDEVICE", "avdevice"),
  ("AVFILTER", "avfilter"),
  ("AVFORMAT", "avformat"),
  ("AVRESAMPLE", "avresample"),
  ("POSTPROC", "postproc"),
  ("SWRESAMPLE", "swresample"),
  ("SWSCALE", "swscale"),
  ("FFMPEG", "ffmpeg"),
  ("FFPLAY", "ffplay"),
  ("FFPROBE", "ffprobe")
]

/-- The `(feature, switch-name)` pairs passed through `enable!`
(lines 205-262), in order. -/
def enableList : List (String × String) := [
  ("BUILD_LIB_GNUTLS", "gnutls"),
  ("BUILD_LIB_OPENSSL", "openssl"),
  ("BUILD_LIB_SCHANNEL", "schannel"),
  ("BUILD_LIB_SECURETRANSPORT", "securetransport"),
  ("BUILD_LIB_FONTCONFIG", "fontconfig"),
  ("BUILD_LIB_FREI0R", "frei0r"),
  ("BUILD_LIB_LADSPA", "ladspa"),
  ("BUILD_LIB_ASS", "libass"),
  ("BUILD_LIB_FREETYPE", "libfreetype"),
  ("BUILD_LIB_FRIBIDI", "libfribidi"),
  ("BUILD_LIB_OPENCV", "libopencv"),
  ("BUILD_LIB_AACPLUS", "libaacplus"),
  ("BUILD_LIB_CELT", "libcelt"),
  ("BUILD_LIB_DCADEC", "libdcadec"),
  ("BUILD_LIB_FAAC", "libfaac"),
  ("BUILD_LIB_FDK_AAC", "libfdk-aac"),
  ("BUILD_LIB_GSM", "libgsm"),
  ("BUILD_LIB_ILBC", "libilbc"),
  ("BUILD_LIB_VAZAAR", "libvazaar"),
  ("BUILD_LIB_MP3LAME", "libmp3lame"),
  ("BUILD_LIB_OPENCORE_AMRNB", "libopencore-amrnb"),
  ("BUILD_LIB_OPENCORE_AMRWB", "libopencore-amrwb"),
  ("BUILD_LIB_OPENH264", "libopenh264"),
  ("BUILD_LIB_OPENH265", "libopenh265"),
  ("BUILD_LIB_OPENJPEG", "libopenjpeg"),
  ("BUILD_LIB_OPUS", "libopus"),
  ("BUILD_LIB_SCHROEDINGER", "libschroedinger"),
  ("BUILD_LIB_SHINE", "libshine"),
  ("BUILD_LIB_SNAPPY", "libsnappy"),
  ("BUILD_LIB_SPEEX", "libspeex"),
  ("BUILD_LIB_STAGEFRIGHT_H264", "libstagefright-h264"),
  ("BUILD_LIB_THEORA", "libtheora"),
  ("BUILD_LIB_TWOLAME", "libtwolame"),
  ("BUILD_LIB_UTVIDEO", "libutvideo"),
  ("BUILD_LIB_VO_AACENC", "libvo-aacenc"),
  ("BUILD_LIB_VO_AMRWBENC", "libvo-amrwbenc"),
  ("BUILD_LIB_VORBIS", "libvorbis"),
  ("BUILD_LIB_VPX", "libvpx"),
  ("BUILD_LIB_WAVPACK", "libwavpack"),
  ("BUILD_LIB_WEBP", "libwebp"),
  ("BUILD_LIB_X264", "libx264"),
  ("BUILD_LIB_X265", "libx265"),
  ("BUILD_LIB_AVS", "libavs"),
  ("BUILD_LIB_XVID", "libxvid"),
  ("BUILD_NVENC", "nvenc"),
  ("BUILD_LIB_SMBCLIENT", "libsmbclient"),
  ("BUILD_LIB_SSH", "libssh"),
  ("BUILD_PIC", "pic")
]

/-- The arguments pushed before any `switch!`/`enable!` expansion
(lines 113-152): platform switches, prefix, cross prefix, debug/stripping
and static/shared/pic. -/
def preludeArgs (e : BuildEnv) : List String :=
  (if hasSub e.target "windows" then
    (if hasSub e.target "-msvc" then ["--toolchain=msvc"] else []) ++
    (if hasSub e.target "x86_64" then ["--target-os=win64", "--arch=x86_64"] else []) ++
    ["--prefix=/" ++ winPrefixMangle e.search]
  else ["--prefix=" ++ e.search]) ++
  (if e.target ≠ e.host then ["--cross-prefix=" ++ e.target ++ "-"] else []) ++
  (if e.debugSet then ["--enable-debug", "--disable-stripping"]
  else ["--disable-debug", "--enable-stripping"]) ++
  ["--enable-static", "--disable-shared", "--enable-pic"]

/-- The full configure argument list assembled by `build` (lines 111-262). -/
def buildArgs (e : BuildEnv) : List String :=
  preludeArgs e ++ toggleList.flatMap (fun p => switchArgs e p.1 p.2) ++
    enableList.flatMap (fun p => enableArgs e p.1 p.2)

/-- The fixed (environment-independent) strings `preludeArgs` can contain. -/
def fixedPrelude : List String :=
  ["--toolchain=msvc", "--target-os=win64", "--arch=x86_64",
   "--enable-debug", "--disable-stripping", "--disable-debug",
   "--enable-stripping", "--enable-static", "--disable-shared", "--enable-pic"]

/-- The concrete all-features-off Linux environment used for counterexamples
and witnesses. -/
def linuxEnvNone : BuildEnv :=
  ⟨"x86_64-unknown-linux-gnu", "x86_64-unknown-linux-gnu", "/build/dist", false, fun _ => false⟩

/-- The concrete all-features-on Linux environment used for witnesses. -/
def linuxEnvAll : BuildEnv :=
  ⟨"x86_64-unknown-linux-gnu", "x86_64-unknown-linux-gnu", "/build/dist", false, fun _ => true⟩

/-! ### The EXTRALIBS link-flag record resolver (`main`, src/build.rs lines 539-589)

`main` reads `ffbuild/config.mak` line by line.  Lines not starting with
`EXTRALIBS` are skipped.  A retained line is split at the first `=`
(`splitn(2, '=')`); the key's last `-`-separated segment names the owning
sub-library; unless it is the bare `EXTRALIBS` marker or `avutil`, its
`CARGO_FEATURE_*` variable must be set or the line is skipped.  The value's
space-separated tokens of the platform shape (`NAME.lib` on Windows, `-lNAME`
elsewhere) are stripped to bare names and accumulated without duplicates.
`split.next().unwrap()` for the value panics on a line with no `=`.

The Rust `str` primitives involved (`starts_with`, `ends_with`, `split`,
slicing) are modelled at the character level below. -/

/-- Rust `str::starts_with` for a literal pattern. -/
def strStartsWith (s p : String) : Bool := p.data.isPrefixOf s.data

/-- Rust `str::ends_with` for a literal pattern. -/
def strEndsWith (s p : String) : Bool := p.data.reverse.isPrefixOf s.data.reverse

/-- Rust `&s[n..]` (drop the first `n` characters; the tokens handled here
are ASCII, where bytes and characters agree). -/
def strDrop (s : String) (n : Nat) : String := String.mk (s.data.drop n)

/-- Rust `&s[..s.len() - n]` (drop the last `n` characters). -/
def strDropRight (s : String) (n : Nat) : String :=
  String.mk (s.data.take (s.data.length - n))

def splitChAux (c : Char) : List Char → List Char → List String
  | [], cur => [String.mk cur.reverse]
  | x :: t, cur =>
    if x == c then String.mk cur.reverse :: splitChAux c t []
    else splitChAux c t (x :: cur)

/-- Rust `str::split(c)` for a character separator: the (always nonempty)
list of segments between occurrences of `c`. -/
def splitCh (s : String) (c : Char) : List String := splitChAux c s.data []

/-- Model of `line.splitn(2, '=')`: the text before the first `'='`, and the
text after it (`none` when the line has no `'='`). -/
def splitOnceEq (s : String) : String × Option String :=
  (String.mk (s.data.takeWhile (fun c => c != '=')),
   match s.data.dropWhile (fun c => c != '=') with
   | [] => none
   | _ :: r => some (String.mk r))

/-- `split.next().unwrap().split('-').last().unwrap()` (line 551): the last
`-`-separated segment of the record key. -/
def libKey (k : String) : String := (splitCh k '-').getLastD ""

/-- Token extraction from a record value (lines 564-578): `.lib`-suffixed
tokens stripped of the suffix on Windows, `-l`-prefixed tokens stripped of
the prefix elsewhere. -/
def linkTokens (windows : Bool) (args : String) : List String :=
  if windows then
    ((splitCh args ' ').filter (fun v => strEndsWith v ".lib")).map
      (fun l => strDropRight l 4)
  else
    ((splitCh args ' ').filter (fun v => strStartsWith v "-l")).map
      (fun f => strDrop f 2)

/-- `if !include_libs.contains(&lib) { include_libs.push(lib) }` (lines 579-583). -/
def insertNew (acc : List String) (x : String) : List String :=
  if acc.contains x then acc else acc ++ [x]

/-- The retention test of lines 554-562: bare `EXTRALIBS` and `avutil` always
pass; any other key suffix requires its feature variable. -/
def lineGate (enabled : String → Bool) (lib : String) : Bool :=
  lib == "EXTRALIBS" || lib == "avutil" || enabled ("CARGO_FEATURE_" ++ lib.toUpper)

/-- The record-processing loop (lines 545-584) over the already-read lines,
accumulating `include_libs`; `none` models the `unwrap` panic on an
`EXTRALIBS`-prefixed line without `'='`. -/
def extraLibs (windows : Bool) (enabled : String → Bool) :
    List String → List String → Option (List String)
  | acc, [] => some acc
  | acc, line :: rest =>
    if strStartsWith line "EXTRALIBS" then
      match (splitOnceEq line).2 with
      | none => none
      | some linkerArgs =>
        if lineGate enabled (libKey (splitOnceEq line).1) then
          extraLibs windows enabled
            ((linkTokens windows linkerArgs).foldl insertNew acc) rest
        else extraLibs windows enabled acc rest
    else extraLibs windows enabled acc rest

/-- The token contribution of one record line (`none` = panic, `some []` =
line skipped or gated out). -/
def gatedLine (windows : Bool) (enabled : String → Bool) (line : String) :
    Option (List String) :=
  if strStartsWith line "EXTRALIBS" then
    match (splitOnceEq line).2 with
    | none => none
    | some linkerArgs =>
      if lineGate enabled (libKey (splitOnceEq line).1) then
        some (linkTokens windows linkerArgs)
      else some []
  else some []

/-- The flat stream of library tokens contributed by all processed lines, in
line order. -/
def gatedStream (windows : Bool) (enabled : String → Bool) :
    List String → Option (List String)
  | [] => some []
  | l :: rest =>
    match gatedLine windows enabled l with
    | none => none
    | some ts => (gatedStream windows enabled rest).map (fun s => ts ++ s)

/-- Reference first-occurrence deduplication (fuel-based for structural
recursion): keeps the first occurrence of each element, in order. -/
def dedupFAux : Nat → List String → List String
  | 0, _ => []
  | _ + 1, [] => []
  | f + 1, x :: t => x :: dedupFAux f (t.filter (fun y => !(y == x)))

def dedupF (l : List String) : List String := dedupFAux l.length l

/-! ### Theorems -/

/-- `isPrefixOf` agrees with the `<+:` relation (wrapper around the
Batteries lemma, specialised to characters). -/
theorem isPre_iff {l₁ l₂ : List Char} : l₁.isPrefixOf l₂ = true ↔ l₁ <+: l₂ :=
  List.isPrefixOf_iff_prefix

theorem findSub_isSome_iff (hay pat : List Char) :
    (findSub hay pat).isSome = true ↔ ∃ i, pat.isPrefixOf (hay.drop i) = true := by
  induction hay with
  | nil =>
    simp only [findSub]
    split
    · rename_i h
      simp only [Option.isSome_some, true_iff]
      exact ⟨0, by simpa using h⟩
    · rename_i h
      simp only [Option.isSome_none, Bool.false_eq_true, false_iff, not_exists]
      intro i hi
      simp only [List.drop_nil] at hi
      exact h hi
  | cons c t ih =>
    simp only [findSub]
    split
    · rename_i h
      simp only [Option.isSome_some, true_iff]
      exact ⟨0, by simpa using h⟩
    · rename_i h
      rw [Option.isSome_map']
      rw [ih]
      constructor
      · rintro ⟨i, hi⟩
        exact ⟨i + 1, by simpa using hi⟩
      · rintro ⟨i, hi⟩
        match i with
        | 0 => exact absurd (by simpa using hi) h
        | j + 1 => exact ⟨j, by simpa using hi⟩

/-- A substring occurrence survives appending text on the right. -/
theorem findSub_append_isSome {a pat : List Char} (b : List Char)
    (h : (findSub a pat).isSome = true) : (findSub (a ++ b) pat).isSome = true := by
  rw [findSub_isSome_iff] at h ⊢
  obtain ⟨i, hi⟩ := h
  rw [isPre_iff] at hi
  rcases Nat.le_total i a.length with hle | hgt
  · refine ⟨i, ?_⟩
    rw [isPre_iff, List.drop_append_of_le_length hle]
    obtain ⟨t, ht⟩ := hi
    exact ⟨t ++ b, by rw [← List.append_assoc, ht]⟩
  · rw [List.drop_eq_nil_of_le hgt] at hi
    obtain ⟨t, ht⟩ := hi
    have hpat : pat = [] := (List.append_eq_nil.mp ht).1
    refine ⟨0, ?_⟩
    rw [hpat, isPre_iff]
    exact ⟨(a ++ b).drop 0, by simp⟩

/-- A pattern occurs at the front of a list it starts. -/
theorem isPrefixOf_self_append (pat rest : List Char) :
    pat.isPrefixOf (pat ++ rest) = true := by
  rw [isPre_iff]
  exact ⟨rest, rfl⟩

/-- If no occurrence of `pat` starts inside `a`, the first occurrence in
`a ++ b` is the first occurrence in `b`, shifted by `a.length`. -/
theorem findSub_append_shift {pat : List Char} (a b : List Char)
    (h : ∀ p, p < a.length → ¬ pat.isPrefixOf ((a ++ b).drop p) = true) :
    findSub (a ++ b) pat = (findSub b pat).map (fun k => k + a.length) := by
  induction a with
  | nil =>
    simp only [List.nil_append, List.length_nil]
    cases hf : findSub b pat <;> simp
  | cons c a' ih =>
    have h0 : ¬ pat.isPrefixOf (c :: (a' ++ b)) = true := by
      have := h 0 (by simp)
      simpa using this
    simp only [List.cons_append, findSub, List.append_eq, h0, if_false]
    rw [ih]
    · cases hf : findSub b pat with
      | none => simp
      | some k =>
        simp only [Option.map_some', List.length_cons]
        congr 1
    · intro p hp
      have := h (p + 1) (by simp only [List.length_cons]; omega)
      simpa using this

theorem getElem?_append_plus {α : Type} (a b : List α) (k : Nat) :
    (a ++ b)[a.length + k]? = b[k]? := by
  rw [List.getElem?_append_right (Nat.le_add_right _ _)]
  congr 1
  omega

theorem digitC_safe (k : Nat) :
    digitC k ≠ '[' ∧ digitC k ≠ ']' ∧ digitC k ≠ '\n' := by
  unfold digitC
  split <;> exact ⟨by decide, by decide, by decide⟩

theorem natDecAux_safe (fuel n : Nat) :
    ∀ c ∈ natDecAux fuel n, c ≠ '[' ∧ c ≠ ']' ∧ c ≠ '\n' := by
  induction fuel generalizing n with
  | zero => intro c hc; simp [natDecAux] at hc
  | succ f ih =>
    intro c hc
    simp only [natDecAux] at hc
    split at hc
    · simp only [List.mem_singleton] at hc
      exact hc ▸ digitC_safe n
    · rw [List.mem_append] at hc
      rcases hc with hc | hc
      · exact ih _ c hc
      · simp only [List.mem_singleton] at hc
        exact hc ▸ digitC_safe (n % 10)

theorem intDec_safe (i : Int) :
    ∀ c ∈ intDec i, c ≠ '[' ∧ c ≠ ']' ∧ c ≠ '\n' := by
  intro c hc
  unfold intDec at hc
  split at hc
  · rcases List.mem_cons.mp hc with hc | hc
    · exact hc ▸ ⟨by decide, by decide, by decide⟩
    · exact natDecAux_safe _ _ c hc
  · exact natDecAux_safe _ _ c hc

theorem natDec_ne_nil (n : Nat) : natDec n ≠ [] := by
  unfold natDec natDecAux
  split
  · simp
  · simp

theorem intDec_ne_nil (i : Int) : intDec i ≠ [] := by
  unfold intDec
  split
  · simp
  · exact natDec_ne_nil _

theorem strLen (s : String) : s.length = s.data.length := rfl

/-- Two bracket-free words followed by a closing bracket can only align if
they are equal: the key step showing a tag `"[v]"` can only match at a line
whose symbol is `v`. -/
theorem closeForce (x : List Char) :
    ∀ (y z : List Char), (∀ c ∈ x, c ≠ ']') → (∀ c ∈ y, c ≠ ']') →
      (x ++ [']']) <+: (y ++ ']' :: z) → x = y := by
  induction x with
  | nil =>
    intro y z _ hy h
    cases y with
    | nil => rfl
    | cons b y' =>
      exfalso
      simp only [List.nil_append, List.cons_append] at h
      rw [List.cons_prefix_cons] at h
      exact hy b (by simp) h.1.symm
  | cons a x' ih =>
    intro y z hx hy h
    cases y with
    | nil =>
      exfalso
      simp only [List.cons_append, List.nil_append] at h
      rw [List.cons_prefix_cons] at h
      exact hx a (by simp) h.1
    | cons b y' =>
      simp only [List.cons_append] at h
      rw [List.cons_prefix_cons] at h
      have := ih y' z (fun c hc => hx c (by simp [hc])) (fun c hc => hy c (by simp [hc]))
        (by simpa using h.2)
      rw [h.1, this]

theorem head_of_pre {c : Char} {p l : List Char} (h : (c :: p) <+: l) :
    l.head? = some c := by
  obtain ⟨t, ht⟩ := h
  rw [← ht]
  simp

/-- Every character of a probe line other than its leading bracket is not an
opening bracket (for a bracket-free symbol): tags cannot start mid-line. -/
theorem probeLine_tail_safe (facts : HeaderFacts) (v : String) (hv : noBrk v) :
    ∀ c ∈ v.data ++ ']' :: lineDigits facts v, c ≠ '[' := by
  intro c hc
  rw [List.mem_append] at hc
  rcases hc with hc | hc
  · exact (hv c hc).1
  · rcases List.mem_cons.mp hc with hc | hc
    · subst hc; decide
    · unfold lineDigits at hc
      rw [List.mem_append] at hc
      rcases hc with hc | hc
      · rw [List.mem_append] at hc
        rcases hc with hc | hc
        · exact (intDec_safe _ c hc).1
        · split at hc <;> simp only [List.mem_singleton] at hc <;> subst hc <;> decide
      · simp only [List.mem_singleton] at hc
        subst hc; decide

theorem lineDigits_len (facts : HeaderFacts) (v : String) :
    2 ≤ (lineDigits facts v).length := by
  unfold lineDigits
  have h1 : 1 ≤ (intDec ((facts v).getD 0)).length :=
    List.length_pos.mpr (intDec_ne_nil _)
  simp only [List.length_append]
  split <;> simp only [List.length_singleton, List.length_cons] <;> omega

/-- Core round-trip lemma: in the concatenated probe output of a list of
bracket-free symbols, the search for `"[v]"` lands on a line for the symbol
`v` itself, and the two parsed characters are the first two characters of
that line's digit block. -/
theorem outLines_cons (facts : HeaderFacts) (u : String) (t : List String) :
    outLines facts (u :: t) = probeLine facts u ++ outLines facts t := by
  simp [outLines]

theorem parse_core (facts : HeaderFacts) (vs : List String) (v : String)
    (hv : v ∈ vs) (hok : ∀ u ∈ vs, noBrk u) :
    ∃ j, findSub (outLines facts vs) ('[' :: v.data ++ [']']) = some j ∧
      (outLines facts vs)[j + v.length + 2]? = (lineDigits facts v)[0]? ∧
      (outLines facts vs)[j + v.length + 3]? = (lineDigits facts v)[1]? := by
  induction vs with
  | nil => exact absurd hv (by simp)
  | cons u t ih =>
    have hshape : probeLine facts u ++ outLines facts t =
        '[' :: (u.data ++ ']' :: (lineDigits facts u ++ outLines facts t)) := by
      show ('[' :: u.data ++ ']' :: lineDigits facts u) ++ outLines facts t = _
      simp
    have hshape2 : probeLine facts u ++ outLines facts t =
        ('[' :: u.data) ++ (']' :: (lineDigits facts u ++ outLines facts t)) := by
      rw [hshape]
      simp
    by_cases huv : u = v
    · subst huv
      refine ⟨0, ?_, ?_, ?_⟩
      · rw [outLines_cons, hshape, findSub, if_pos]
        rw [isPre_iff]
        refine ⟨lineDigits facts u ++ outLines facts t, ?_⟩
        simp
      · rw [outLines_cons, hshape2]
        rw [(by simp only [List.length_cons, strLen]; omega :
          (0 : Nat) + u.length + 2 = ('[' :: u.data).length + 1)]
        rw [getElem?_append_plus]
        simp only [List.getElem?_cons_succ]
        rw [List.getElem?_append_left]
        have := lineDigits_len facts u
        omega
      · rw [outLines_cons, hshape2]
        rw [(by simp only [List.length_cons, strLen]; omega :
          (0 : Nat) + u.length + 3 = ('[' :: u.data).length + 2)]
        rw [getElem?_append_plus]
        simp only [List.getElem?_cons_succ]
        rw [List.getElem?_append_left]
        have := lineDigits_len facts u
        omega
    · have hvt : v ∈ t := by
        rcases List.mem_cons.mp hv with h | h
        · exact absurd h.symm huv
        · exact h
      obtain ⟨j, h1, h2, h3⟩ := ih hvt (fun w hw => hok w (by simp [hw]))
      have hspan : ∀ p, p < (probeLine facts u).length →
          ¬ ('[' :: v.data ++ [']']).isPrefixOf
            ((probeLine facts u ++ outLines facts t).drop p) = true := by
        intro p hp hpre
        rw [isPre_iff] at hpre
        match p with
        | 0 =>
          simp only [List.drop_zero] at hpre
          rw [hshape, List.cons_append] at hpre
          rw [List.cons_prefix_cons] at hpre
          have heq := closeForce v.data u.data (lineDigits facts u ++ outLines facts t)
            (fun c hc => ((hok v hv) c hc).2)
            (fun c hc => ((hok u (by simp)) c hc).2)
            (by simpa using hpre.2)
          exact huv (String.ext heq.symm)
        | q + 1 =>
          rw [List.cons_append] at hpre
          have hhead : (probeLine facts u ++ outLines facts t)[q + 1]? = some '[' := by
            rw [← List.head?_drop]
            exact head_of_pre hpre
          rw [List.getElem?_append_left hp] at hhead
          have hstep : (probeLine facts u)[q + 1]? =
              (u.data ++ ']' :: lineDigits facts u)[q]? := by
            show ('[' :: (u.data ++ ']' :: lineDigits facts u))[q + 1]? = _
            simp
          rw [hstep] at hhead
          have hmem := List.getElem?_mem hhead
          exact probeLine_tail_safe facts u (hok u (by simp)) '[' hmem rfl
      refine ⟨j + (probeLine facts u).length, ?_, ?_, ?_⟩
      · rw [outLines_cons]
        rw [findSub_append_shift _ _ hspan, h1]
        simp
      · rw [outLines_cons]
        rw [(by omega : j + (probeLine facts u).length + v.length + 2 =
          (probeLine facts u).length + (j + v.length + 2))]
        rw [getElem?_append_plus]
        exact h2
      · rw [outLines_cons]
        rw [(by omega : j + (probeLine facts u).length + v.length + 3 =
          (probeLine facts u).length + (j + v.length + 3))]
        rw [getElem?_append_plus]
        exact h3

/-- Evaluation of `parseProbe` on generated output: the parsed pair is built
from the first two characters of the digit block of the line for `v`. -/
theorem parse_out (facts : HeaderFacts) (vs : List String) (v : String)
    (hv : v ∈ vs) (hok : ∀ u ∈ vs, noBrk u) (d0 d1 : Char)
    (h0 : (lineDigits facts v)[0]? = some d0) (h1 : (lineDigits facts v)[1]? = some d1) :
    parseProbe (outLines facts vs) v = some (decide (d0 = '1'), decide (d1 = '1')) := by
  obtain ⟨j, hj, h2, h3⟩ := parse_core facts vs v hv hok
  unfold parseProbe
  rw [hj]
  simp only
  rw [(by omega : j + v.length + 2 + 1 = j + v.length + 3)]
  rw [h2, h0, h3, h1]

theorem lineDigits_defined_one (facts : HeaderFacts) (v : String)
    (h : facts v = some 1) : lineDigits facts v = ['1', '1', '\n'] := by
  rw [lineDigits, h]
  rfl

theorem lineDigits_undefined (facts : HeaderFacts) (v : String)
    (h : facts v = none) : lineDigits facts v = ['0', '0', '\n'] := by
  rw [lineDigits, h]
  rfl

/-- C1.  Probe round-trip: in any run of `check_features` whose catalog
retains a spec `X` that the included headers define as `1` and a spec `Y`
that they leave undefined (all retained symbol names being ordinary
bracket-free identifiers), parsing the synthesized diagnostic's output yields
value/defined facts `(true, true)` for `X` and `(false, false)` for `Y`. -/
theorem probe_round_trip (facts : HeaderFacts) (enabled : String → Bool)
    (specs : List ProbeSpec) (X Y : ProbeSpec)
    (hX : X ∈ specs) (hY : Y ∈ specs)
    (hXr : retained enabled X = true) (hYr : retained enabled Y = true)
    (hfX : facts X.var = some 1) (hfY : facts Y.var = none)
    (hok : ∀ s ∈ specs, retained enabled s = true → noBrk s.var) :
    parseProbe (probeStdout facts enabled specs) X.var = some (true, true) ∧
    parseProbe (probeStdout facts enabled specs) Y.var = some (false, false) := by
  have hok0 : ∀ u ∈ (specs.filter (retained enabled)).map (fun s => s.var), noBrk u := by
    intro u hu
    rw [List.mem_map] at hu
    obtain ⟨s, hs, rfl⟩ := hu
    rw [List.mem_filter] at hs
    exact hok s hs.1 hs.2
  constructor
  · have hv : X.var ∈ (specs.filter (retained enabled)).map (fun s => s.var) :=
      List.mem_map.mpr ⟨X, List.mem_filter.mpr ⟨hX, hXr⟩, rfl⟩
    have := parse_out facts _ X.var hv hok0 '1' '1'
      (by rw [lineDigits_defined_one facts X.var hfX]; rfl)
      (by rw [lineDigits_defined_one facts X.var hfX]; rfl)
    simpa using this
  · have hv : Y.var ∈ (specs.filter (retained enabled)).map (fun s => s.var) :=
      List.mem_map.mpr ⟨Y, List.mem_filter.mpr ⟨hY, hYr⟩, rfl⟩
    have := parse_out facts _ Y.var hv hok0 '0' '0'
      (by rw [lineDigits_undefined facts Y.var hfY]; rfl)
      (by rw [lineDigits_undefined facts Y.var hfY]; rfl)
    simpa using this

/-- Witness for C1 at a concrete two-spec catalog. -/
theorem probe_round_trip_witness :
    parseProbe
        (probeStdout (fun v => if v = "X" then some 1 else none) (fun _ => false)
          [⟨"a.h", none, "X"⟩, ⟨"a.h", none, "Y"⟩]) "X" = some (true, true) ∧
    parseProbe
        (probeStdout (fun v => if v = "X" then some 1 else none) (fun _ => false)
          [⟨"a.h", none, "X"⟩, ⟨"a.h", none, "Y"⟩]) "Y" = some (false, false) :=
  probe_round_trip (fun v => if v = "X" then some 1 else none) (fun _ => false)
    [⟨"a.h", none, "X"⟩, ⟨"a.h", none, "Y"⟩]
    ⟨"a.h", none, "X"⟩ ⟨"a.h", none, "Y"⟩
    (by decide) (by decide) (by decide) (by decide) (by decide) (by decide)
    (by decide)

theorem parsePass_filter (enabled : String → Bool) (out : List Char) :
    ∀ specs : List ProbeSpec,
      parsePass enabled out specs = parsePass enabled out (specs.filter (retained enabled)) := by
  intro specs
  induction specs with
  | nil => rfl
  | cons s rest ih =>
    by_cases hr : retained enabled s = true
    · rw [List.filter_cons_of_pos hr]
      simp only [parsePass]
      rw [if_pos hr, if_pos hr]
      cases parseProbe out s.var with
      | none => rfl
      | some r => rw [ih]
    · rw [List.filter_cons_of_neg (by simpa using hr)]
      simp only [parsePass]
      rw [if_neg hr]
      exact ih

theorem parsePass_isSome (facts : HeaderFacts) (enabled : String → Bool)
    (vs0 : List String) (hok0 : ∀ u ∈ vs0, noBrk u) :
    ∀ l : List ProbeSpec, (∀ s ∈ l, retained enabled s = true → s.var ∈ vs0) →
      (parsePass enabled (outLines facts vs0) l).isSome = true := by
  intro l
  induction l with
  | nil => intro _; rfl
  | cons s rest ih =>
    intro hin
    simp only [parsePass]
    by_cases hr : retained enabled s = true
    · rw [if_pos hr]
      have hv := hin s (by simp) hr
      have hld := lineDigits_len facts s.var
      obtain ⟨d0, h0⟩ : ∃ d, (lineDigits facts s.var)[0]? = some d := by
        rw [List.getElem?_eq_getElem (by omega)]
        exact ⟨_, rfl⟩
      obtain ⟨d1, h1⟩ : ∃ d, (lineDigits facts s.var)[1]? = some d := by
        rw [List.getElem?_eq_getElem (by omega)]
        exact ⟨_, rfl⟩
      rw [parse_out facts vs0 s.var hv hok0 d0 d1 h0 h1]
      rw [Option.isSome_map']
      exact ih (fun w hw => hin w (by simp [hw]))
    · rw [if_neg hr]
      exact ih (fun w hw => hin w (by simp [hw]))

/-- C10.  The guard-feature filter is applied identically by the synthesis
pass and the parse pass of `check_features`: the parse loop's result is
unchanged if the skipped (disabled-guard) specs are removed outright, and on
the output the synthesis pass itself generated, the parse loop never hits the
missing-tag panic — in particular a disabled-guard spec can never trigger
it. -/
theorem guard_filter_consistent (facts : HeaderFacts) (enabled : String → Bool)
    (specs : List ProbeSpec)
    (hok : ∀ s ∈ specs, retained enabled s = true → noBrk s.var) :
    (∀ out, parsePass enabled out specs
        = parsePass enabled out (specs.filter (retained enabled))) ∧
    (parsePass enabled (probeStdout facts enabled specs) specs).isSome = true := by
  constructor
  · intro out
    exact parsePass_filter enabled out specs
  · have hok0 : ∀ u ∈ (specs.filter (retained enabled)).map (fun s => s.var), noBrk u := by
      intro u hu
      rw [List.mem_map] at hu
      obtain ⟨s, hs, rfl⟩ := hu
      rw [List.mem_filter] at hs
      exact hok s hs.1 hs.2
    exact parsePass_isSome facts enabled _ hok0 specs
      (fun s hs hr => List.mem_map.mpr ⟨s, List.mem_filter.mpr ⟨hs, hr⟩, rfl⟩)

/-- Witness for C10: a catalog with a disabled-guard spec parses without
panic, the skipped spec never being looked up. -/
theorem guard_filter_consistent_witness :
    (∀ out, parsePass (fun _ => false) out
        [⟨"b.h", some "avcodec", "SKIPPED"⟩, ⟨"a.h", none, "X"⟩]
        = parsePass (fun _ => false) out
          (List.filter (retained (fun _ => false))
            [⟨"b.h", some "avcodec", "SKIPPED"⟩, ⟨"a.h", none, "X"⟩])) ∧
    (parsePass (fun _ => false)
        (probeStdout (fun _ => none) (fun _ => false)
          [⟨"b.h", some "avcodec", "SKIPPED"⟩, ⟨"a.h", none, "X"⟩])
        [⟨"b.h", some "avcodec", "SKIPPED"⟩, ⟨"a.h", none, "X"⟩]).isSome = true :=
  guard_filter_consistent (fun _ => none) (fun _ => false)
    [⟨"b.h", some "avcodec", "SKIPPED"⟩, ⟨"a.h", none, "X"⟩] (by decide)

/-- C9 (code_bug evidence).  With every feature enabled (so in particular
`avcodec`), the retained symbol list of the concrete catalog contains
`FF_API_XVMC` twice — once from the unguarded `libavutil/avutil.h` entry and
once from the `avcodec`-guarded `libavcodec/avcodec.h` entry — so the catalog
violates the unique-symbol invariant and the diagnostic output carries two
`[FF_API_XVMC]` lines. -/
theorem catalog_var_clash :
    List.count "FF_API_XVMC" (retainedVars (fun _ => true)) = 2 ∧
    ¬ (retainedVars (fun _ => true)).Nodup := by
  constructor
  · decide
  · intro h
    have := (List.nodup_iff_count_le_one.mp h) "FF_API_XVMC"
    have h2 : List.count "FF_API_XVMC" (retainedVars (fun _ => true)) = 2 := by decide
    omega

/-- C4.  Each generated version fact is true exactly when the installed
version is strictly newer: `installedMajor > major`, or equal major and
`installedMinor > minor`; in particular, over the concrete catalog range
`major ∈ [56,60) × minor ∈ [0,80)` with installed version 58.3, the fact for
`(major, minor)` is true exactly when `major < 58` or `major = 58 ∧
minor < 3`. -/
theorem version_fact_correct :
    (∀ instMajor instMinor major minor : Nat,
      versionFact instMajor instMinor major minor = true ↔
        (major < instMajor ∨ (major = instMajor ∧ minor < instMinor))) ∧
    (∀ p ∈ avcodecVersionPairs,
      (versionFact 58 3 p.1 p.2 = true ↔ (p.1 < 58 ∨ (p.1 = 58 ∧ p.2 < 3)))) := by
  constructor
  · intro iM im M m
    simp only [versionFact, Bool.or_eq_true, Bool.and_eq_true, decide_eq_true_eq, gt_iff_lt]
    omega
  · intro p _
    simp only [versionFact, Bool.or_eq_true, Bool.and_eq_true, decide_eq_true_eq, gt_iff_lt]
    omega

/-- Witness for C4 at the pair `(56, 0)` of the concrete range. -/
theorem version_fact_correct_witness :
    (versionFact 58 3 56 0 = true ↔ (56 < 58 ∨ (56 = 58 ∧ 0 < 3))) ∧
    (versionFact 58 3 57 79 = true ↔ (57 < 58 ∨ (57 = 58 ∧ 79 < 3))) :=
  ⟨version_fact_correct.1 58 3 56 0,
   version_fact_correct.2 (57, 79) (by decide)⟩

theorem synthStep_inv (acc : String × List String) (s : ProbeSpec)
    (h : IncInv acc) : IncInv (synthStep acc s) := by
  obtain ⟨hnd, hmem⟩ := h
  unfold synthStep
  by_cases hf : (findSub acc.1.data (includeDirective s.header).data).isNone = true
  · simp only [hf, if_true]
    constructor
    · simp only
      rw [List.nodup_append]
      refine ⟨hnd, List.nodup_singleton _, ?_⟩
      intro x hx
      simp only [List.mem_singleton]
      intro hxs
      subst hxs
      have h2 := hmem s.header hx
      rw [Option.isNone_iff_eq_none] at hf
      rw [hf] at h2
      simp at h2
    · intro hdr hhdr
      simp only at hhdr ⊢
      rw [List.mem_append] at hhdr
      have hdata : (acc.1 ++ includeDirective s.header ++ "\n" ++ guardBlock s.var).data
          = acc.1.data ++ ((includeDirective s.header).data ++ ("\n".data ++ (guardBlock s.var).data)) := by
        simp only [String.data_append, List.append_assoc]
      rcases hhdr with hx | hx
      · rw [hdata]
        exact findSub_append_isSome _ (hmem hdr hx)
      · simp only [List.mem_singleton] at hx
        subst hx
        rw [hdata, findSub_isSome_iff]
        refine ⟨acc.1.data.length, ?_⟩
        rw [List.drop_left]
        exact isPrefixOf_self_append _ _
  · simp only [hf, if_false]
    refine ⟨hnd, ?_⟩
    intro hdr hhdr
    simp only at hhdr ⊢
    rw [String.data_append]
    exact findSub_append_isSome _ (hmem hdr hhdr)

theorem synthFold_inv (l : List ProbeSpec) :
    ∀ acc, IncInv acc → IncInv (l.foldl synthStep acc) := by
  induction l with
  | nil => intro acc h; exact h
  | cons s rest ih =>
    intro acc h
    exact ih _ (synthStep_inv acc s h)

/-- C8.  In the synthesized diagnostic program each distinct header path is
included at most once, however many retained specs reference it: the list of
headers whose `#include` directive got appended has no duplicates, and each
appended directive does occur in the final `includes_code`. -/
theorem include_once (enabled : String → Bool) (specs : List ProbeSpec) :
    (synthIncludes enabled specs).2.Nodup ∧
    ∀ h ∈ (synthIncludes enabled specs).2,
      (findSub (synthIncludes enabled specs).1.data (includeDirective h).data).isSome = true := by
  have := synthFold_inv (specs.filter (retained enabled)) ("", [])
    ⟨List.nodup_nil, by intro h hh; simp at hh⟩
  exact this

theorem strCancel {p a b : String} (h : p ++ a = p ++ b) : a = b := by
  apply String.ext
  have h2 := congrArg String.data h
  rw [String.data_append, String.data_append] at h2
  exact List.append_cancel_left h2

theorem append_eq_pre {p s c : String} (h : p ++ s = c) :
    p.data.isPrefixOf c.data = true := by
  rw [isPre_iff]
  exact ⟨s.data, by rw [← String.data_append, h]⟩

/-- A string whose `i`-th character differs from `q`'s cannot start `q ++ s`. -/
theorem noPre_of_mismatch (p q : String) (i : Nat)
    (hip : i < p.data.length) (hiq : i < q.data.length)
    (hne : p.data[i]? ≠ q.data[i]?) :
    ∀ s : String, ¬ p.data.isPrefixOf (q ++ s).data = true := by
  intro s hpre
  rw [isPre_iff] at hpre
  obtain ⟨t, ht⟩ := hpre
  apply hne
  have e1 : (q ++ s).data[i]? = p.data[i]? := by
    rw [← ht]
    exact List.getElem?_append_left hip
  have e2 : (q ++ s).data[i]? = q.data[i]? := by
    rw [String.data_append]
    exact List.getElem?_append_left hiq
  rw [← e1, e2]

theorem ne_of_mismatch (p q : String) (i : Nat)
    (hip : i < p.data.length) (hiq : i < q.data.length)
    (hne : p.data[i]? ≠ q.data[i]?) :
    ∀ a b : String, p ++ a ≠ q ++ b := by
  intro a b h
  exact noPre_of_mismatch p q i hip hiq hne b (append_eq_pre h)

theorem ne_fixed {c p : String} (h : ¬ p.data.isPrefixOf c.data = true) :
    ∀ s, p ++ s ≠ c :=
  fun _ hs => h (append_eq_pre hs)

theorem enable_not_fixed (n : String) (h1 : n ≠ "debug") (h2 : n ≠ "stripping")
    (h3 : n ≠ "static") (h4 : n ≠ "pic") : ("--enable-" ++ n) ∉ fixedPrelude := by
  intro hmem
  simp only [fixedPrelude, List.mem_cons, List.not_mem_nil, or_false] at hmem
  rcases hmem with h | h | h | h | h | h | h | h | h | h
  · exact ne_fixed (by decide) n h
  · exact ne_fixed (by decide) n h
  · exact ne_fixed (by decide) n h
  · rw [(by decide : ("--enable-debug" : String) = "--enable-" ++ "debug")] at h
    exact h1 (strCancel h)
  · exact ne_fixed (by decide) n h
  · exact ne_fixed (by decide) n h
  · rw [(by decide : ("--enable-stripping" : String) = "--enable-" ++ "stripping")] at h
    exact h2 (strCancel h)
  · rw [(by decide : ("--enable-static" : String) = "--enable-" ++ "static")] at h
    exact h3 (strCancel h)
  · exact ne_fixed (by decide) n h
  · rw [(by decide : ("--enable-pic" : String) = "--enable-" ++ "pic")] at h
    exact h4 (strCancel h)

theorem disable_not_fixed (n : String) (h1 : n ≠ "stripping") (h2 : n ≠ "debug")
    (h3 : n ≠ "shared") : ("--disable-" ++ n) ∉ fixedPrelude := by
  intro hmem
  simp only [fixedPrelude, List.mem_cons, List.not_mem_nil, or_false] at hmem
  rcases hmem with h | h | h | h | h | h | h | h | h | h
  · exact ne_fixed (by decide) n h
  · exact ne_fixed (by decide) n h
  · exact ne_fixed (by decide) n h
  · exact ne_fixed (by decide) n h
  · rw [(by decide : ("--disable-stripping" : String) = "--disable-" ++ "stripping")] at h
    exact h1 (strCancel h)
  · rw [(by decide : ("--disable-debug" : String) = "--disable-" ++ "debug")] at h
    exact h2 (strCancel h)
  · exact ne_fixed (by decide) n h
  · exact ne_fixed (by decide) n h
  · rw [(by decide : ("--disable-shared" : String) = "--disable-" ++ "shared")] at h
    exact h3 (strCancel h)
  · exact ne_fixed (by decide) n h

theorem prefix_slash_shift (m : String) :
    "--prefix=/" ++ m = "--prefix=" ++ ("/" ++ m) := by
  apply String.ext
  simp [String.data_append]

theorem cross_shift (t : String) :
    "--cross-prefix=" ++ t ++ "-" = "--cross-prefix=" ++ (t ++ "-") := by
  apply String.ext
  simp [String.data_append, List.append_assoc]

/-- Every element of `preludeArgs` is either one of the fixed switches or a
`--prefix=`/`--cross-prefix=` argument. -/
theorem prelude_shape (e : BuildEnv) (x : String) (h : x ∈ preludeArgs e) :
    x ∈ fixedPrelude ∨ (∃ s, x = "--prefix=" ++ s) ∨ (∃ s, x = "--cross-prefix=" ++ s) := by
  unfold preludeArgs at h
  simp only [List.mem_append] at h
  rcases h with ((h | h) | h) | h
  · split at h
    · simp only [List.mem_append] at h
      rcases h with (h | h) | h
      · split at h
        · simp only [List.mem_singleton] at h
          exact Or.inl (by rw [h]; decide)
        · exact absurd h (List.not_mem_nil x)
      · split at h
        · simp only [List.mem_cons, List.not_mem_nil, or_false] at h
          rcases h with h | h
          · exact Or.inl (by rw [h]; decide)
          · exact Or.inl (by rw [h]; decide)
        · exact absurd h (List.not_mem_nil x)
      · simp only [List.mem_singleton] at h
        exact Or.inr (Or.inl ⟨"/" ++ winPrefixMangle e.search, by rw [h, prefix_slash_shift]⟩)
    · simp only [List.mem_singleton] at h
      exact Or.inr (Or.inl ⟨e.search, h⟩)
  · split at h
    · simp only [List.mem_singleton] at h
      exact Or.inr (Or.inr ⟨e.target ++ "-", by rw [h, cross_shift]⟩)
    · exact absurd h (List.not_mem_nil x)
  · split at h
    · simp only [List.mem_cons, List.not_mem_nil, or_false] at h
      rcases h with h | h
      · exact Or.inl (by rw [h]; decide)
      · exact Or.inl (by rw [h]; decide)
    · simp only [List.mem_cons, List.not_mem_nil, or_false] at h
      rcases h with h | h
      · exact Or.inl (by rw [h]; decide)
      · exact Or.inl (by rw [h]; decide)
  · simp only [List.mem_cons, List.not_mem_nil, or_false] at h
    rcases h with h | h | h
    · exact Or.inl (by rw [h]; decide)
    · exact Or.inl (by rw [h]; decide)
    · exact Or.inl (by rw [h]; decide)

theorem not_mem_prelude (e : BuildEnv) (x : String)
    (hfix : x ∉ fixedPrelude)
    (h1 : ∀ s, x ≠ "--prefix=" ++ s)
    (h2 : ∀ s, x ≠ "--cross-prefix=" ++ s) :
    x ∉ preludeArgs e := by
  intro hx
  rcases prelude_shape e x hx with h | ⟨s, hs⟩ | ⟨s, hs⟩
  · exact hfix h
  · exact h1 s hs
  · exact h2 s hs

theorem mem_switchArgs {e : BuildEnv} {feat name x : String} :
    x ∈ switchArgs e feat name ↔
      (e.feature ("CARGO_FEATURE_" ++ feat) = true ∧ x = "--enable-" ++ name) ∨
      (e.feature ("CARGO_FEATURE_" ++ feat) = false ∧ x = "--disable-" ++ name) := by
  unfold switchArgs
  cases hb : e.feature ("CARGO_FEATURE_" ++ feat) with
  | true => simp [hb]
  | false => simp [hb]

theorem mem_enableArgs {e : BuildEnv} {feat name x : String} :
    x ∈ enableArgs e feat name ↔
      (e.feature ("CARGO_FEATURE_" ++ feat) = true ∧ x = "--enable-" ++ name) := by
  unfold enableArgs
  cases hb : e.feature ("CARGO_FEATURE_" ++ feat) with
  | true => simp [hb]
  | false => simp [hb]

theorem toggle_names : ∀ q ∈ toggleList,
    q.2 ≠ "debug" ∧ q.2 ≠ "stripping" ∧ q.2 ≠ "static" ∧ q.2 ≠ "shared" ∧ q.2 ≠ "pic" := by
  decide

theorem enable_names : ∀ q ∈ enableList,
    q.2 ≠ "debug" ∧ q.2 ≠ "stripping" ∧ q.2 ≠ "static" ∧ q.2 ≠ "shared" := by
  decide

theorem toggle_inj : ∀ a ∈ toggleList, ∀ b ∈ toggleList, a.2 = b.2 → a.1 = b.1 := by
  decide

theorem enable_inj : ∀ a ∈ enableList, ∀ b ∈ enableList, a.2 = b.2 → a.1 = b.1 := by
  decide

theorem toggle_enable_disj : ∀ a ∈ toggleList, ∀ b ∈ enableList, a.2 ≠ b.2 := by
  decide

/-- C2.  Every `switch!` (Toggle) flag contributes exactly one of its two
switches to the configure argument list: the enable form when its
`CARGO_FEATURE_*` variable is set, the disable form otherwise — never both,
never neither. -/
theorem toggle_exactly_one (e : BuildEnv) (p : String × String) (hp : p ∈ toggleList) :
    (e.feature ("CARGO_FEATURE_" ++ p.1) = true →
      ("--enable-" ++ p.2) ∈ buildArgs e ∧ ("--disable-" ++ p.2) ∉ buildArgs e) ∧
    (e.feature ("CARGO_FEATURE_" ++ p.1) = false →
      ("--disable-" ++ p.2) ∈ buildArgs e ∧ ("--enable-" ++ p.2) ∉ buildArgs e) := by
  have hnames := toggle_names p hp
  constructor
  · intro hset
    constructor
    · unfold buildArgs
      rw [List.mem_append]
      refine Or.inl ?_
      rw [List.mem_append]
      refine Or.inr ?_
      rw [List.mem_flatMap]
      exact ⟨p, hp, by rw [mem_switchArgs]; exact Or.inl ⟨hset, rfl⟩⟩
    · intro hmem
      unfold buildArgs at hmem
      rcases List.mem_append.mp hmem with hmem | hmem
      · rcases List.mem_append.mp hmem with hpre | htog
        · exact not_mem_prelude e _
            (disable_not_fixed p.2 hnames.2.1 hnames.1 hnames.2.2.2.1)
            (fun s => ne_of_mismatch "--disable-" "--prefix=" 2
              (by decide) (by decide) (by decide) p.2 s)
            (fun s => ne_of_mismatch "--disable-" "--cross-prefix=" 2
              (by decide) (by decide) (by decide) p.2 s) hpre
        · rcases List.mem_flatMap.mp htog with ⟨q, hq, hin⟩
          rw [mem_switchArgs] at hin
          rcases hin with ⟨_, heq⟩ | ⟨hqf, heq⟩
          · exact ne_of_mismatch "--disable-" "--enable-" 2
              (by decide) (by decide) (by decide) p.2 q.2 heq
          · have hnm : p.2 = q.2 := strCancel heq
            have hft := toggle_inj p hp q hq hnm
            rw [← hft] at hqf
            rw [hset] at hqf
            exact Bool.noConfusion hqf
      · rcases List.mem_flatMap.mp hmem with ⟨q, _, hin⟩
        rw [mem_enableArgs] at hin
        exact ne_of_mismatch "--disable-" "--enable-" 2
          (by decide) (by decide) (by decide) p.2 q.2 hin.2
  · intro hset
    constructor
    · unfold buildArgs
      rw [List.mem_append]
      refine Or.inl ?_
      rw [List.mem_append]
      refine Or.inr ?_
      rw [List.mem_flatMap]
      exact ⟨p, hp, by rw [mem_switchArgs]; exact Or.inr ⟨hset, rfl⟩⟩
    · intro hmem
      unfold buildArgs at hmem
      rcases List.mem_append.mp hmem with hmem | hmem
      · rcases List.mem_append.mp hmem with hpre | htog
        · exact not_mem_prelude e _
            (enable_not_fixed p.2 hnames.1 hnames.2.1 hnames.2.2.1 hnames.2.2.2.2)
            (fun s => ne_of_mismatch "--enable-" "--prefix=" 2
              (by decide) (by decide) (by decide) p.2 s)
            (fun s => ne_of_mismatch "--enable-" "--cross-prefix=" 2
              (by decide) (by decide) (by decide) p.2 s) hpre
        · rcases List.mem_flatMap.mp htog with ⟨q, hq, hin⟩
          rw [mem_switchArgs] at hin
          rcases hin with ⟨hqt, heq⟩ | ⟨_, heq⟩
          · have hnm : p.2 = q.2 := strCancel heq
            have hft := toggle_inj p hp q hq hnm
            rw [← hft] at hqt
            rw [hset] at hqt
            exact Bool.noConfusion hqt
          · exact ne_of_mismatch "--enable-" "--disable-" 2
              (by decide) (by decide) (by decide) p.2 q.2 heq
      · rcases List.mem_flatMap.mp hmem with ⟨q, hq, hin⟩
        rw [mem_enableArgs] at hin
        have hnm : p.2 = q.2 := strCancel hin.2
        exact toggle_enable_disj p hp q hq hnm

/-- Witness for C2 at the `avcodec` toggle with all features enabled. -/
theorem toggle_exactly_one_witness :
    ("--enable-" ++ "avcodec") ∈ buildArgs linuxEnvAll ∧
    ("--disable-" ++ "avcodec") ∉ buildArgs linuxEnvAll :=
  (toggle_exactly_one linuxEnvAll ("AVCODEC", "avcodec") (by decide)).1 rfl

/-- Counterexample for C3 as stated: `pic` is an `enable!` flag, yet
`--enable-pic` is in the argument list even though `CARGO_FEATURE_BUILD_PIC`
is unset, because line 152 pushes `--enable-pic` unconditionally. -/
theorem enable_only_claim_false :
    ("BUILD_PIC", "pic") ∈ enableList ∧
    linuxEnvNone.feature "CARGO_FEATURE_BUILD_PIC" = false ∧
    ("--enable-pic") ∈ buildArgs linuxEnvNone := by
  refine ⟨by decide, rfl, ?_⟩
  decide

/-- C3 (amended).  For every `enable!` (EnableOnly) flag: the enable switch is
emitted when the feature is set; the disable switch is never emitted; and for
every such flag other than `pic` (whose enable switch line 152 also pushes
unconditionally) the enable switch appears iff the feature is set. -/
theorem enable_only_flags (e : BuildEnv) (p : String × String) (hp : p ∈ enableList) :
    (e.feature ("CARGO_FEATURE_" ++ p.1) = true → ("--enable-" ++ p.2) ∈ buildArgs e) ∧
    ("--disable-" ++ p.2) ∉ buildArgs e ∧
    (p.2 ≠ "pic" →
      (("--enable-" ++ p.2) ∈ buildArgs e ↔ e.feature ("CARGO_FEATURE_" ++ p.1) = true)) := by
  have hnames := enable_names p hp
  refine ⟨?_, ?_, ?_⟩
  · intro hset
    unfold buildArgs
    rw [List.mem_append]
    refine Or.inr ?_
    rw [List.mem_flatMap]
    exact ⟨p, hp, by rw [mem_enableArgs]; exact ⟨hset, rfl⟩⟩
  · intro hmem
    unfold buildArgs at hmem
    rcases List.mem_append.mp hmem with hmem | hmem
    · rcases List.mem_append.mp hmem with hpre | htog
      · exact not_mem_prelude e _
          (disable_not_fixed p.2 hnames.2.1 hnames.1 hnames.2.2.2)
          (fun s => ne_of_mismatch "--disable-" "--prefix=" 2
            (by decide) (by decide) (by decide) p.2 s)
          (fun s => ne_of_mismatch "--disable-" "--cross-prefix=" 2
            (by decide) (by decide) (by decide) p.2 s) hpre
      · rcases List.mem_flatMap.mp htog with ⟨q, hq, hin⟩
        rw [mem_switchArgs] at hin
        rcases hin with ⟨_, heq⟩ | ⟨_, heq⟩
        · exact ne_of_mismatch "--disable-" "--enable-" 2
            (by decide) (by decide) (by decide) p.2 q.2 heq
        · have hnm : p.2 = q.2 := strCancel heq
          exact toggle_enable_disj q hq p hp hnm.symm
    · rcases List.mem_flatMap.mp hmem with ⟨q, _, hin⟩
      rw [mem_enableArgs] at hin
      exact ne_of_mismatch "--disable-" "--enable-" 2
        (by decide) (by decide) (by decide) p.2 q.2 hin.2
  · intro hpic
    constructor
    · intro hmem
      unfold buildArgs at hmem
      rcases List.mem_append.mp hmem with hmem | hmem
      · rcases List.mem_append.mp hmem with hpre | htog
        · exact absurd hpre (not_mem_prelude e _
            (enable_not_fixed p.2 hnames.1 hnames.2.1 hnames.2.2.1 hpic)
            (fun s => ne_of_mismatch "--enable-" "--prefix=" 2
              (by decide) (by decide) (by decide) p.2 s)
            (fun s => ne_of_mismatch "--enable-" "--cross-prefix=" 2
              (by decide) (by decide) (by decide) p.2 s))
        · exfalso
          rcases List.mem_flatMap.mp htog with ⟨q, hq, hin⟩
          rw [mem_switchArgs] at hin
          rcases hin with ⟨_, heq⟩ | ⟨_, heq⟩
          · have hnm : p.2 = q.2 := strCancel heq
            exact toggle_enable_disj q hq p hp hnm.symm
          · exact ne_of_mismatch "--enable-" "--disable-" 2
              (by decide) (by decide) (by decide) p.2 q.2 heq
      · rcases List.mem_flatMap.mp hmem with ⟨q, hq, hin⟩
        rw [mem_enableArgs] at hin
        obtain ⟨hqt, heq⟩ := hin
        have hnm : p.2 = q.2 := strCancel heq
        have hft := enable_inj p hp q hq hnm
        rw [← hft] at hqt
        exact hqt
    · intro hset
      unfold buildArgs
      rw [List.mem_append]
      refine Or.inr ?_
      rw [List.mem_flatMap]
      exact ⟨p, hp, by rw [mem_enableArgs]; exact ⟨hset, rfl⟩⟩

/-- Witness for C3's amended statement at the `gnutls` flag. -/
theorem enable_only_flags_witness :
    ("--enable-" ++ "gnutls") ∈ buildArgs linuxEnvAll ∧
    ("--disable-" ++ "gnutls") ∉ buildArgs linuxEnvAll ∧
    (("--enable-" ++ "gnutls") ∈ buildArgs linuxEnvAll ↔
      linuxEnvAll.feature ("CARGO_FEATURE_" ++ "BUILD_LIB_GNUTLS") = true) := by
  have h := enable_only_flags linuxEnvAll ("BUILD_LIB_GNUTLS", "gnutls") (by decide)
  exact ⟨h.1 rfl, h.2.1, h.2.2 (by decide)⟩

/-- Counterexample for C5 as stated: a readable record whose only line starts
with `EXTRALIBS` but has no `'='` makes the resolver panic
(`split.next().unwrap()` on `None`, line 552) instead of silently skipping
the line. -/
theorem record_malformed_line_panics :
    extraLibs false (fun _ => false) [] ["EXTRALIBSfoo"] = none := by
  decide

/-- C5 (amended).  Once every `EXTRALIBS`-prefixed line contains an `'='`,
the resolver never fails: lines with unrecognized or missing tokens are
silently skipped (they contribute nothing), and processing of subsequent
lines is unaffected. -/
theorem record_parse_total (w : Bool) (enabled : String → Bool) :
    ∀ (lines : List String) (acc : List String),
      (∀ l ∈ lines, strStartsWith l "EXTRALIBS" = true → ((splitOnceEq l).2).isSome = true) →
      (extraLibs w enabled acc lines).isSome = true := by
  intro lines
  induction lines with
  | nil => intro acc _; rfl
  | cons line rest ih =>
    intro acc hok
    simp only [extraLibs]
    by_cases hs : strStartsWith line "EXTRALIBS" = true
    · rw [if_pos hs]
      have hsome := hok line (by simp) hs
      cases hsplit : (splitOnceEq line).2 with
      | none => rw [hsplit] at hsome; exact absurd hsome (by simp)
      | some la =>
        dsimp only
        by_cases hg : lineGate enabled (libKey (splitOnceEq line).1) = true
        · rw [if_pos hg]
          exact ih _ (fun l hl => hok l (by simp [hl]))
        · rw [if_neg hg]
          exact ih _ (fun l hl => hok l (by simp [hl]))
    · rw [if_neg hs]
      exact ih _ (fun l hl => hok l (by simp [hl]))

/-- Witness for C5's amended statement: a record with one well-formed line
carrying junk tokens and one non-record line parses without failure. -/
theorem record_parse_total_witness :
    (extraLibs false (fun _ => false) []
      ["EXTRALIBS=junk tokens only", "some other line"]).isSome = true :=
  record_parse_total false (fun _ => false)
    ["EXTRALIBS=junk tokens only", "some other line"] [] (by decide)

/-- C7.  Feature gating of record lines: a line whose key suffix is neither
the bare `EXTRALIBS` marker nor `avutil` contributes nothing when its
`CARGO_FEATURE_*` variable is unset, and contributes its extracted tokens
whenever the suffix is `EXTRALIBS`, `avutil`, or its feature is set. -/
theorem extralibs_gating (w : Bool) (enabled : String → Bool) (acc : List String)
    (line : String) (rest : List String) (la : String)
    (hstart : strStartsWith line "EXTRALIBS" = true)
    (hsplit : (splitOnceEq line).2 = some la) :
    (libKey (splitOnceEq line).1 ≠ "EXTRALIBS" → libKey (splitOnceEq line).1 ≠ "avutil" →
      enabled ("CARGO_FEATURE_" ++ (libKey (splitOnceEq line).1).toUpper) = false →
      extraLibs w enabled acc (line :: rest) = extraLibs w enabled acc rest) ∧
    ((libKey (splitOnceEq line).1 = "EXTRALIBS" ∨ libKey (splitOnceEq line).1 = "avutil" ∨
      enabled ("CARGO_FEATURE_" ++ (libKey (splitOnceEq line).1).toUpper) = true) →
      extraLibs w enabled acc (line :: rest)
        = extraLibs w enabled ((linkTokens w la).foldl insertNew acc) rest) := by
  constructor
  · intro h1 h2 h3
    simp only [extraLibs, if_pos hstart, hsplit]
    rw [if_neg]
    simp only [lineGate, Bool.or_eq_true, beq_iff_eq, h3]
    simp [h1, h2]
  · intro hor
    simp only [extraLibs, if_pos hstart, hsplit]
    rw [if_pos]
    simp only [lineGate, Bool.or_eq_true, beq_iff_eq]
    rcases hor with h | h | h
    · exact Or.inl (Or.inl h)
    · exact Or.inl (Or.inr h)
    · exact Or.inr h

/-- Witness for C7: the `EXTRALIBS-avfilter` line is dropped entirely when
`avfilter` is off, and the bare `EXTRALIBS` line is always retained. -/
theorem extralibs_gating_witness :
    extraLibs false (fun _ => false) [] ("EXTRALIBS-avfilter=-lm" :: ["EXTRALIBS=-lz"])
      = extraLibs false (fun _ => false) [] ["EXTRALIBS=-lz"] ∧
    extraLibs false (fun _ => false) [] ("EXTRALIBS=-lz" :: [])
      = extraLibs false (fun _ => false)
          ((linkTokens false "-lz").foldl insertNew []) [] := by
  constructor
  · exact (extralibs_gating false (fun _ => false) [] "EXTRALIBS-avfilter=-lm"
      ["EXTRALIBS=-lz"] "-lm" (by decide) (by decide)).1 (by decide) (by decide) rfl
  · exact (extralibs_gating false (fun _ => false) [] "EXTRALIBS=-lz"
      [] "-lz" (by decide) (by decide)).2 (Or.inl (by decide))

theorem contains_append_one (acc : List String) (x y : String) :
    (acc ++ [x]).contains y = (acc.contains y || (y == x)) := by
  by_cases h : y = x <;> simp [List.contains, List.mem_append, h]

theorem dedupFAux_congr : ∀ (f g : Nat) (l : List String), l.length ≤ f → l.length ≤ g →
    dedupFAux f l = dedupFAux g l := by
  intro f
  induction f with
  | zero =>
    intro g l hf _
    have hl : l = [] := List.length_eq_zero.mp (Nat.le_zero.mp hf)
    subst hl
    cases g <;> rfl
  | succ f ih =>
    intro g l hf hg
    cases l with
    | nil => cases g <;> rfl
    | cons x t =>
      cases g with
      | zero => simp at hg
      | succ g =>
        simp only [dedupFAux]
        congr 1
        exact ih g _
          (le_trans (List.length_filter_le _ _)
            (by simp only [List.length_cons] at hf; omega))
          (le_trans (List.length_filter_le _ _)
            (by simp only [List.length_cons] at hg; omega))

theorem dedupF_cons (x : String) (t : List String) :
    dedupF (x :: t) = x :: dedupF (t.filter (fun y => !(y == x))) := by
  unfold dedupF
  simp only [List.length_cons, dedupFAux]
  congr 1
  exact dedupFAux_congr t.length (t.filter (fun y => !(y == x))).length _
    (List.length_filter_le _ _) le_rfl

/-- The `include_libs` accumulation is first-occurrence deduplication: the
loop's fold equals the accumulator followed by `dedupF` of the not-yet-seen
tokens. -/
theorem foldl_insertNew : ∀ (s acc : List String),
    s.foldl insertNew acc = acc ++ dedupF (s.filter (fun y => !(acc.contains y))) := by
  intro s
  induction s with
  | nil => intro acc; simp [dedupF, dedupFAux]
  | cons x t ih =>
    intro acc
    simp only [List.foldl_cons]
    rw [ih]
    by_cases hc : acc.contains x = true
    · have hins : insertNew acc x = acc := by unfold insertNew; rw [if_pos hc]
      rw [hins]
      have hmx : x ∈ acc := List.elem_iff.mp hc
      have hfil : (x :: t).filter (fun y => !acc.contains y)
          = t.filter (fun y => !acc.contains y) := by
        simp [List.filter_cons, hmx]
      rw [hfil]
    · have hcf : acc.contains x = false := by simpa using hc
      have hins : insertNew acc x = acc ++ [x] := by unfold insertNew; rw [if_neg hc]
      rw [hins]
      have hmx : x ∉ acc := fun hm => hc (List.elem_iff.mpr hm)
      have hfil : (x :: t).filter (fun y => !acc.contains y)
          = x :: t.filter (fun y => !acc.contains y) := by
        simp [List.filter_cons, hmx]
      have hfeq : t.filter (fun y => !((acc ++ [x]).contains y))
          = (t.filter (fun y => !acc.contains y)).filter (fun y => !(y == x)) := by
        rw [List.filter_filter]
        apply List.filter_congr
        intro y _
        rw [contains_append_one, Bool.not_or]
        cases acc.contains y <;> cases (y == x) <;> rfl
      rw [hfeq, hfil, dedupF_cons, List.append_assoc, List.singleton_append]

theorem dedupFAux_mem : ∀ (f : Nat) (l : List String), l.length ≤ f →
    ∀ x, x ∈ dedupFAux f l ↔ x ∈ l := by
  intro f
  induction f with
  | zero =>
    intro l hl x
    have hnil : l = [] := List.length_eq_zero.mp (Nat.le_zero.mp hl)
    subst hnil
    simp [dedupFAux]
  | succ f ih =>
    intro l hl x
    cases l with
    | nil => simp [dedupFAux]
    | cons a t =>
      simp only [dedupFAux, List.mem_cons]
      have hlen : (t.filter (fun y => !(y == a))).length ≤ f :=
        le_trans (List.length_filter_le _ _)
          (by simp only [List.length_cons] at hl; omega)
      rw [ih _ hlen x, List.mem_filter]
      constructor
      · rintro (h | ⟨h, _⟩)
        · exact Or.inl h
        · exact Or.inr h
      · rintro (h | h)
        · exact Or.inl h
        · by_cases hxa : x = a
          · exact Or.inl hxa
          · exact Or.inr ⟨h, by simp [hxa]⟩

theorem dedupFAux_nodup : ∀ (f : Nat) (l : List String), l.length ≤ f →
    (dedupFAux f l).Nodup := by
  intro f
  induction f with
  | zero =>
    intro l hl
    have hnil : l = [] := List.length_eq_zero.mp (Nat.le_zero.mp hl)
    subst hnil
    simp [dedupFAux]
  | succ f ih =>
    intro l hl
    cases l with
    | nil => simp [dedupFAux]
    | cons a t =>
      simp only [dedupFAux]
      rw [List.nodup_cons]
      have hlen : (t.filter (fun y => !(y == a))).length ≤ f :=
        le_trans (List.length_filter_le _ _)
          (by simp only [List.length_cons] at hl; omega)
      refine ⟨?_, ih _ hlen⟩
      intro hmem
      rw [dedupFAux_mem f _ hlen a, List.mem_filter] at hmem
      simp at hmem

theorem dedupFAux_sublist : ∀ (f : Nat) (l : List String), l.length ≤ f →
    (dedupFAux f l).Sublist l := by
  intro f
  induction f with
  | zero =>
    intro l hl
    have hnil : l = [] := List.length_eq_zero.mp (Nat.le_zero.mp hl)
    subst hnil
    simp [dedupFAux]
  | succ f ih =>
    intro l hl
    cases l with
    | nil => simp [dedupFAux]
    | cons a t =>
      simp only [dedupFAux]
      have hlen : (t.filter (fun y => !(y == a))).length ≤ f :=
        le_trans (List.length_filter_le _ _)
          (by simp only [List.length_cons] at hl; omega)
      exact List.Sublist.cons₂ a ((ih _ hlen).trans (List.filter_sublist t))

theorem dedupF_mem (l : List String) (x : String) : x ∈ dedupF l ↔ x ∈ l :=
  dedupFAux_mem l.length l le_rfl x

theorem dedupF_nodup (l : List String) : (dedupF l).Nodup :=
  dedupFAux_nodup l.length l le_rfl

theorem dedupF_sublist (l : List String) : (dedupF l).Sublist l :=
  dedupFAux_sublist l.length l le_rfl

/-- Filtering preserves relative order of first occurrences. -/
theorem indexOf_filter_mono (p : String → Bool) : ∀ (t : List String) (a b : String),
    a ∈ t.filter p → b ∈ t.filter p →
    ((t.filter p).indexOf a ≤ (t.filter p).indexOf b ↔ t.indexOf a ≤ t.indexOf b) := by
  intro t
  induction t with
  | nil => intro a b ha _; simp at ha
  | cons c t ih =>
    intro a b ha hb
    by_cases hpc : p c = true
    · rw [List.filter_cons_of_pos hpc] at ha hb ⊢
      by_cases hac : a = c
      · subst hac
        rw [List.indexOf_cons_self, List.indexOf_cons_self]
        simp
      · by_cases hbc : b = c
        · subst hbc
          rw [List.indexOf_cons_self, List.indexOf_cons_self,
            List.indexOf_cons_ne _ (Ne.symm hac), List.indexOf_cons_ne _ (Ne.symm hac)]
          simp
        · rw [List.indexOf_cons_ne _ (Ne.symm hac), List.indexOf_cons_ne _ (Ne.symm hbc),
            List.indexOf_cons_ne _ (Ne.symm hac), List.indexOf_cons_ne _ (Ne.symm hbc),
            Nat.succ_le_succ_iff, Nat.succ_le_succ_iff]
          exact ih a b
            (by rcases List.mem_cons.mp ha with h | h
                exacts [absurd h hac, h])
            (by rcases List.mem_cons.mp hb with h | h
                exacts [absurd h hbc, h])
    · have hpcf : p c = false := by simpa using hpc
      rw [List.filter_cons_of_neg (by simp [hpcf])] at ha hb ⊢
      have hac : a ≠ c := by
        intro h
        subst h
        rw [List.mem_filter] at ha
        rw [ha.2] at hpcf
        exact Bool.noConfusion hpcf
      have hbc : b ≠ c := by
        intro h
        subst h
        rw [List.mem_filter] at hb
        rw [hb.2] at hpcf
        exact Bool.noConfusion hpcf
      rw [List.indexOf_cons_ne _ (Ne.symm hac), List.indexOf_cons_ne _ (Ne.symm hbc),
        Nat.succ_le_succ_iff]
      exact ih a b ha hb

theorem dedupFAux_indexOf_mono : ∀ (f : Nat) (l : List String), l.length ≤ f →
    ∀ a b, a ∈ dedupFAux f l → b ∈ dedupFAux f l →
    ((dedupFAux f l).indexOf a ≤ (dedupFAux f l).indexOf b ↔
      l.indexOf a ≤ l.indexOf b) := by
  intro f
  induction f with
  | zero =>
    intro l hl a b ha _
    have hnil : l = [] := List.length_eq_zero.mp (Nat.le_zero.mp hl)
    subst hnil
    simp [dedupFAux] at ha
  | succ f ih =>
    intro l hl a b ha hb
    cases l with
    | nil => simp [dedupFAux] at ha
    | cons c t =>
      have hlen : (t.filter (fun y => !(y == c))).length ≤ f :=
        le_trans (List.length_filter_le _ _)
          (by simp only [List.length_cons] at hl; omega)
      simp only [dedupFAux] at ha hb ⊢
      by_cases hac : a = c
      · subst hac
        rw [List.indexOf_cons_self, List.indexOf_cons_self]
        simp
      · by_cases hbc : b = c
        · subst hbc
          rw [List.indexOf_cons_self, List.indexOf_cons_self,
            List.indexOf_cons_ne _ (Ne.symm hac), List.indexOf_cons_ne _ (Ne.symm hac)]
          simp
        · rw [List.indexOf_cons_ne _ (Ne.symm hac), List.indexOf_cons_ne _ (Ne.symm hbc),
            List.indexOf_cons_ne _ (Ne.symm hac), List.indexOf_cons_ne _ (Ne.symm hbc),
            Nat.succ_le_succ_iff, Nat.succ_le_succ_iff]
          have haf : a ∈ dedupFAux f (t.filter (fun y => !(y == c))) := by
            rcases List.mem_cons.mp ha with h | h
            exacts [absurd h hac, h]
          have hbf : b ∈ dedupFAux f (t.filter (fun y => !(y == c))) := by
            rcases List.mem_cons.mp hb with h | h
            exacts [absurd h hbc, h]
          rw [ih _ hlen a b haf hbf]
          exact indexOf_filter_mono _ t a b
            ((dedupFAux_mem f _ hlen a).mp haf)
            ((dedupFAux_mem f _ hlen b).mp hbf)

theorem dedupF_indexOf_mono (l : List String) (a b : String)
    (ha : a ∈ dedupF l) (hb : b ∈ dedupF l) :
    ((dedupF l).indexOf a ≤ (dedupF l).indexOf b ↔ l.indexOf a ≤ l.indexOf b) :=
  dedupFAux_indexOf_mono l.length l le_rfl a b ha hb

/-- The record loop equals a fold of `insertNew` over the gated token stream. -/
theorem extraLibs_eq (w : Bool) (enabled : String → Bool) :
    ∀ (lines : List String) (acc : List String),
      extraLibs w enabled acc lines
        = (gatedStream w enabled lines).map (fun ts => ts.foldl insertNew acc) := by
  intro lines
  induction lines with
  | nil => intro acc; rfl
  | cons line rest ih =>
    intro acc
    simp only [extraLibs, gatedStream, gatedLine]
    by_cases hs : strStartsWith line "EXTRALIBS" = true
    · rw [if_pos hs, if_pos hs]
      cases hsplit : (splitOnceEq line).2 with
      | none => rfl
      | some la =>
        dsimp only
        by_cases hg : lineGate enabled (libKey (splitOnceEq line).1) = true
        · rw [if_pos hg, if_pos hg]
          rw [ih]
          cases gatedStream w enabled rest with
          | none => rfl
          | some s => simp [List.foldl_append]
        · rw [if_neg hg, if_neg hg]
          rw [ih]
          cases gatedStream w enabled rest with
          | none => rfl
          | some s => simp
    · rw [if_neg hs, if_neg hs]
      rw [ih]
      cases gatedStream w enabled rest with
      | none => rfl
      | some s => simp

/-- C6.  The resolver's accumulated library set is duplicate-free and keeps
the order of first occurrence: starting from an empty accumulator the result
is exactly `dedupF` of the gated token stream — no duplicates, the same
members, a subsequence of the stream, one link directive per distinct
library, and relative order matching the stream's first occurrences. -/
theorem link_dedup (w : Bool) (enabled : String → Bool) (lines libs : List String)
    (h : extraLibs w enabled [] lines = some libs) :
    ∃ stream, gatedStream w enabled lines = some stream ∧
      libs = dedupF stream ∧
      libs.Nodup ∧
      (∀ x, x ∈ libs ↔ x ∈ stream) ∧
      libs.Sublist stream ∧
      (∀ x ∈ stream, libs.count x = 1) ∧
      (∀ x y, x ∈ libs → y ∈ libs →
        (libs.indexOf x ≤ libs.indexOf y ↔ stream.indexOf x ≤ stream.indexOf y)) := by
  rw [extraLibs_eq] at h
  cases hgs : gatedStream w enabled lines with
  | none => rw [hgs] at h; exact absurd h (by simp)
  | some stream =>
    rw [hgs] at h
    simp only [Option.map_some', Option.some.injEq] at h
    have hfilt : stream.filter (fun y => !(([] : List String).contains y)) = stream := by
      have hall : ∀ x ∈ stream,
          (fun y => !(([] : List String).contains y)) x = (fun _ => true) x := by
        intro x _
        rfl
      rw [List.filter_congr hall, List.filter_true]
    have hlib : libs = dedupF stream := by
      rw [← h, foldl_insertNew, hfilt]
      simp
    subst hlib
    refine ⟨stream, rfl, rfl, dedupF_nodup stream, fun x => dedupF_mem stream x,
      dedupF_sublist stream, ?_, ?_⟩
    · intro x hx
      exact List.count_eq_one_of_mem (dedupF_nodup stream) ((dedupF_mem stream x).mpr hx)
    · intro x y hx hy
      exact dedupF_indexOf_mono stream x y hx hy

/-- Witness for C6 at a concrete two-line record where `-lm` occurs twice. -/
theorem link_dedup_witness :
    ∃ stream,
      gatedStream false (fun _ => false)
          ["EXTRALIBS=-lm -lpthread", "EXTRALIBS-avutil=-lm"] = some stream ∧
      (["m", "pthread"] : List String) = dedupF stream ∧
      (["m", "pthread"] : List String).Nodup ∧
      (∀ x, x ∈ (["m", "pthread"] : List String) ↔ x ∈ stream) ∧
      (["m", "pthread"] : List String).Sublist stream ∧
      (∀ x ∈ stream, (["m", "pthread"] : List String).count x = 1) ∧
      (∀ x y, x ∈ (["m", "pthread"] : List String) → y ∈ (["m", "pthread"] : List String) →
        ((["m", "pthread"] : List String).indexOf x ≤ (["m", "pthread"] : List String).indexOf y ↔
          stream.indexOf x ≤ stream.indexOf y)) :=
  link_dedup false (fun _ => false)
    ["EXTRALIBS=-lm -lpthread", "EXTRALIBS-avutil=-lm"] ["m", "pthread"] (by decide)

end FfmpegSys
